import Mathlib

/-!
Shallow embedding of the knock-mq in-process priority job queue
(`src/queue.ts`, `src/storage.ts`).

Timestamps are modelled as `Nat` milliseconds (JS `Date.getTime()` /
`Date.now()` values).  The opaque payload type parameter `T` is
monomorphised to `Nat`.  JS `Map` iteration order is insertion order, so the
storage map is modelled as a `List QueueItem` in insertion order where
`Map.set` replaces in place when the key exists and appends otherwise.
`Array.prototype.sort` is stable, so the sort in `dequeue` is modelled with
a stable insertion sort over the total preorder induced by the comparator.
-/

inductive QueuePriority
  | high
  | normal
  | low
deriving DecidableEq

inductive QueueStatus
  | queued
  | processing
  | delivered
  | failed
  | undeliverable
  | cancelled
deriving DecidableEq

structure QueueMetadata where
  attempts : Nat
  status : QueueStatus
  queuedAt : Nat
  lastAttemptAt : Option Nat := none
  nextAttemptAt : Option Nat := none
  error : Option String := none
  expiresAt : Option Nat := none
deriving DecidableEq

structure QueueItem where
  id : String
  priority : QueuePriority
  data : Nat
  metadata : QueueMetadata
deriving DecidableEq

/-- The in-memory storage backing map (`private items = new Map<...>()`),
as a list in insertion order. -/
abbrev InMemoryStorage := List QueueItem

/-- `this.items.has(id)`. -/
def InMemoryStorage.hasId (s : InMemoryStorage) (id : String) : Bool :=
  s.any (fun it => it.id == id)

/-- `this.items.set(item.id, item)`: replace in place if the key exists,
append otherwise (JS `Map` insertion-order semantics). -/
def InMemoryStorage.mapSet (s : InMemoryStorage) (it : QueueItem) : InMemoryStorage :=
  if s.hasId it.id then s.map (fun x => if x.id == it.id then it else x)
  else s ++ [it]

/-- `InMemoryStorage.enqueue(item)`. -/
def InMemoryStorage.enqueue (s : InMemoryStorage) (it : QueueItem) : InMemoryStorage :=
  s.mapSet it

/-- The `opts : Partial<QueueItem>` argument of `enqueueOnce`: only the
`priority` and `metadata` members are consulted by the code. -/
structure EnqueueOpts where
  priority : Option QueuePriority := none
  metadata : Option QueueMetadata := none
deriving DecidableEq

/-- `InMemoryStorage.enqueueOnce(id, data, opts)`.  The metadata literal is
`{attempts: 0, status: queued, queuedAt: new Date(), ...opts.metadata}`;
since `opts.metadata`, when present, carries all three required fields, the
spread yields `opts.metadata` itself, and the defaults otherwise. -/
def InMemoryStorage.enqueueOnce (s : InMemoryStorage) (id : String) (dat : Nat)
    (opts : EnqueueOpts) (now : Nat) : Bool × InMemoryStorage :=
  if s.hasId id then (false, s)
  else
    let md : QueueMetadata :=
      opts.metadata.getD { attempts := 0, status := .queued, queuedAt := now }
    let it : QueueItem :=
      { id := id, priority := opts.priority.getD .normal, data := dat, metadata := md }
    (true, s.enqueue it)

/-- `InMemoryStorage.updateStatus(id, status)`: set the status of the entry
with this id, no-op if absent. -/
def InMemoryStorage.updateStatus (s : InMemoryStorage) (id : String)
    (st : QueueStatus) : InMemoryStorage :=
  s.map (fun it =>
    if it.id == id then { it with metadata := { it.metadata with status := st } } else it)

/-- `InMemoryStorage.complete(id, _success)`: always marks delivered,
ignoring the flag. -/
def InMemoryStorage.complete (s : InMemoryStorage) (id : String)
    (_success : Bool) : InMemoryStorage :=
  s.map (fun it =>
    if it.id == id then { it with metadata := { it.metadata with status := .delivered } }
    else it)

/-- `InMemoryStorage.moveToDeadLetter(id, reason)`: set status=undeliverable
and error=reason on the entry with this id. -/
def InMemoryStorage.moveToDeadLetter (s : InMemoryStorage) (id : String)
    (reason : String) : InMemoryStorage :=
  s.map (fun it =>
    if it.id == id then
      { it with metadata :=
        { it.metadata with status := .undeliverable, error := some reason } }
    else it)

/-- `InMemoryStorage.getItem(id)`. -/
def InMemoryStorage.getItem (s : InMemoryStorage) (id : String) : Option QueueItem :=
  s.find? (fun it => it.id == id)

/-- `InMemoryStorage.getDeadLetterItems(limit)`. -/
def InMemoryStorage.getDeadLetterItems (s : InMemoryStorage) (limit : Nat) :
    List QueueItem :=
  (s.filter (fun it => it.metadata.status == .undeliverable)).take limit

/-- `InMemoryStorage.findStuckProcessing(since)`. -/
def InMemoryStorage.findStuckProcessing (s : InMemoryStorage) (since : Nat) :
    List QueueItem :=
  s.filter (fun it =>
    it.metadata.status == .processing &&
    (match it.metadata.lastAttemptAt with
     | none => false
     | some t => decide (t < since)))

/-- `priorityScore(priority)`: high=1, normal=2, low=3. -/
def priorityScore : QueuePriority → Nat
  | .high => 1
  | .normal => 2
  | .low => 3

/-- The eligibility filter of `dequeue`: status=queued, `nextAttemptAt`
unset or ≤ now, `expiresAt` unset or > now. -/
def dequeueReady (now : Nat) (it : QueueItem) : Bool :=
  it.metadata.status == .queued &&
  (match it.metadata.nextAttemptAt with
   | none => true
   | some t => decide (t ≤ now)) &&
  (match it.metadata.expiresAt with
   | none => true
   | some t => decide (now < t))

/-- The total preorder induced by the JS comparator of `dequeue`
`pri !== 0 ? pri : a.queuedAt - b.queuedAt`: `a` sorts no later than `b`. -/
def dequeueLE (a b : QueueItem) : Prop :=
  priorityScore a.priority < priorityScore b.priority ∨
  (priorityScore a.priority = priorityScore b.priority ∧
    a.metadata.queuedAt ≤ b.metadata.queuedAt)

instance : DecidableRel dequeueLE := fun a b => by
  unfold dequeueLE; infer_instance

instance : IsTotal QueueItem dequeueLE :=
  ⟨fun a b => by
    unfold dequeueLE
    rcases Nat.lt_trichotomy (priorityScore a.priority) (priorityScore b.priority) with h | h | h
    · exact Or.inl (Or.inl h)
    · rcases Nat.le_total a.metadata.queuedAt b.metadata.queuedAt with h2 | h2
      · exact Or.inl (Or.inr ⟨h, h2⟩)
      · exact Or.inr (Or.inr ⟨h.symm, h2⟩)
    · exact Or.inr (Or.inl h)⟩

instance : IsTrans QueueItem dequeueLE :=
  ⟨fun a b c hab hbc => by
    unfold dequeueLE at *
    rcases hab with h1 | ⟨h1, h1q⟩ <;> rcases hbc with h2 | ⟨h2, h2q⟩
    · exact Or.inl (Nat.lt_trans h1 h2)
    · exact Or.inl (h2 ▸ h1)
    · exact Or.inl (h1 ▸ h2)
    · exact Or.inr ⟨h1.trans h2, Nat.le_trans h1q h2q⟩⟩

/-- `InMemoryStorage.dequeue(limit)`: filter the ready items, stable-sort
by the comparator, take the first `limit`. -/
def InMemoryStorage.dequeue (s : InMemoryStorage) (limit : Nat) (now : Nat) :
    List QueueItem :=
  ((s.filter (dequeueReady now)).insertionSort dequeueLE).take limit

/-- `Queue.calculateBackoff(attempt)`:
`Math.min(backoffBaseMs * 2**(attempt-1), 30_000)`. -/
def calculateBackoff (backoffBaseMs : Nat) (attempt : Nat) : Nat :=
  min (backoffBaseMs * 2 ^ (attempt - 1)) 30000

/-- The outcome of one invocation of the caller-supplied processor:
it resolves with `{success: true}`, resolves with `{success: false}`, or
throws an error with the given message. -/
inductive ProcOutcome
  | success
  | fail
  | thrown (msg : String)
deriving DecidableEq

/-- Circuit breaker state: `private failures = 0; private lastFailure = 0`. -/
structure CircuitBreaker where
  failures : Nat
  lastFailure : Nat
deriving DecidableEq

/-- `CircuitBreaker.isOpen()`:
`failures >= threshold && Date.now() - lastFailure < timeout`.
The JS subtraction is over signed numbers, hence the `Int` cast. -/
def CircuitBreaker.isOpen (cb : CircuitBreaker) (threshold timeout : Nat)
    (now : Nat) : Bool :=
  decide (threshold ≤ cb.failures) &&
  decide ((now : Int) - (cb.lastFailure : Int) < (timeout : Int))

/-- What a `CircuitBreaker.execute` call produced: a resolved processor
result with a success flag, or a raised error message (either the breaker
message "Circuit breaker is open" or the propagated processor error). -/
inductive CBResult
  | ok (success : Bool)
  | raised (msg : String)
deriving DecidableEq

structure CBOut where
  result : CBResult
  cb : CircuitBreaker
  invoked : Bool
deriving DecidableEq

/-- `CircuitBreaker.execute(fn)` with the processor behaviour supplied as
`out`: if open, throw without invoking `fn`; otherwise invoke `fn`; on a
resolved result reset `failures` to 0; on a throw increment `failures`,
record `lastFailure = Date.now()`, and propagate the error. -/
def CircuitBreaker.execute (cb : CircuitBreaker) (threshold timeout : Nat)
    (now : Nat) (out : ProcOutcome) : CBOut :=
  if cb.isOpen threshold timeout now then
    ⟨.raised "Circuit breaker is open", cb, false⟩
  else
    match out with
    | .success => ⟨.ok true, { cb with failures := 0 }, true⟩
    | .fail => ⟨.ok false, { cb with failures := 0 }, true⟩
    | .thrown msg => ⟨.raised msg, { failures := cb.failures + 1, lastFailure := now }, true⟩

/-- The breaker parameters hard-coded in the `Queue` constructor:
`new CircuitBreaker(5, 30000, config.logger)`. -/
def breakerThreshold : Nat := 5

def breakerCooldownMs : Nat := 30000

/-- The engine configuration fields the modelled paths read. -/
structure QueueConfig where
  maxRetries : Nat
  backoffBaseMs : Nat
  timeoutMs : Nat
deriving DecidableEq

/-- The `stats` record of `Queue`; `seen` is the dedup string set, modelled as
the list of its elements. -/
structure QueueStats where
  totalProcessed : Nat
  totalErrors : Nat
  processingTimes : List Nat
  seen : List String
deriving DecidableEq

/-- Events the engine emits, carrying the id of the item concerned. -/
inductive QueueEvent
  | itemDelivered (id : String)
  | itemRetryScheduled (id : String)
  | itemUndeliverable (id : String)
  | itemTimeout (id : String)
  | itemStuck (id : String)
deriving DecidableEq

/-- The mutable state of a `Queue` instance: the storage backing map, the
in-flight map `processing` (id ↦ startedAt), the stats, and the breaker. -/
structure QueueState where
  store : InMemoryStorage
  processing : List (String × Nat)
  stats : QueueStats
  cb : CircuitBreaker
deriving DecidableEq

/-- `this.processing.has(id)`. -/
def QueueState.inFlight (s : QueueState) (id : String) : Bool :=
  s.processing.any (fun e => e.1 == id)

/-- `Queue.clearProcessing(id)`: delete the in-flight entry (the timer
clearing has no modelled effect). -/
def clearProcessing (p : List (String × Nat)) (id : String) : List (String × Nat) :=
  p.eraseP (fun e => e.1 == id)

/-- `Queue.handleFailure(item, processor)`: increment attempts, mark failed,
then either dead-letter (attempts ≥ maxRetries) or schedule a retry with
exponential backoff.  Returns the mutated item object, the new storage
state, and the emitted events. -/
def handleFailure (cfg : QueueConfig) (store : InMemoryStorage) (item : QueueItem)
    (now : Nat) : QueueItem × InMemoryStorage × List QueueEvent :=
  let item1 : QueueItem :=
    { item with metadata :=
      { item.metadata with attempts := item.metadata.attempts + 1, status := .failed } }
  if cfg.maxRetries ≤ item1.metadata.attempts then
    let store1 := store.moveToDeadLetter item.id "max_retries"
    let item2 : QueueItem :=
      { item1 with metadata := { item1.metadata with status := .undeliverable } }
    (item2, store1, [.itemUndeliverable item.id])
  else
    let backoff := calculateBackoff cfg.backoffBaseMs item1.metadata.attempts
    let item2 : QueueItem :=
      { item1 with metadata :=
        { item1.metadata with nextAttemptAt := some (now + backoff), status := .queued } }
    (item2, store.updateStatus item.id .queued, [.itemRetryScheduled item.id])

/-- `Queue.handleError(item, err, processor)`: record the error message on
the item, bump `totalErrors`, notify monitoring (no modelled effect), then
funnel into `handleFailure`. -/
def handleError (cfg : QueueConfig) (store : InMemoryStorage) (stats : QueueStats)
    (item : QueueItem) (msg : String) (now : Nat) :
    QueueItem × InMemoryStorage × QueueStats × List QueueEvent :=
  let item1 : QueueItem :=
    { item with metadata := { item.metadata with error := some msg } }
  let stats1 := { stats with totalErrors := stats.totalErrors + 1 }
  let r := handleFailure cfg store item1 now
  (r.1, r.2.1, stats1, r.2.2)

/-- The success-path stats block of `processItem`: bump `totalProcessed`
once per unseen id and push a processing-duration sample. -/
def recordStats (stats : QueueStats) (id : String) (dur : Nat) : QueueStats :=
  let stats1 :=
    if stats.seen.contains id then stats
    else { stats with totalProcessed := stats.totalProcessed + 1, seen := id :: stats.seen }
  { stats1 with processingTimes := stats1.processingTimes ++ [dur] }

/-- `Queue.processItem(item, processor)` run to completion without the
deadline timer firing (the timer path is `handleTimeout` below).  `now` is
the clock at entry and `dur` the recorded processing duration.  Returns the
new queue state, the emitted events, and whether the processor was
invoked. -/
def processItem (cfg : QueueConfig) (s : QueueState) (item : QueueItem)
    (out : ProcOutcome) (now : Nat) (dur : Nat) :
    QueueState × List QueueEvent × Bool :=
  if s.inFlight item.id then (s, [], false)
  else
    let processing1 := (item.id, now) :: s.processing
    let item1 : QueueItem :=
      { item with metadata :=
        { item.metadata with status := .processing, lastAttemptAt := some now } }
    let store1 := s.store.updateStatus item.id .processing
    let cbOut := s.cb.execute breakerThreshold breakerCooldownMs now out
    match cbOut.result with
    | .ok true =>
        let store2 := store1.complete item.id true
        let stats1 := recordStats s.stats item.id dur
        (⟨store2, clearProcessing processing1 item.id, stats1, cbOut.cb⟩,
          [.itemDelivered item.id], cbOut.invoked)
    | .ok false =>
        let r := handleFailure cfg store1 item1 now
        let stats1 := recordStats s.stats item.id dur
        (⟨r.2.1, clearProcessing processing1 item.id, stats1, cbOut.cb⟩,
          r.2.2, cbOut.invoked)
    | .raised msg =>
        let r := handleError cfg store1 s.stats item1 msg now
        (⟨r.2.1, clearProcessing processing1 item.id, r.2.2.1, cbOut.cb⟩,
          r.2.2.2, cbOut.invoked)

/-- `Queue.handleTimeout(id)`: no-op unless the id is in flight; otherwise
mark the stored item failed, raise `itemTimeout`, clear the in-flight
entry. -/
def handleTimeout (s : QueueState) (id : String) : QueueState × List QueueEvent :=
  if s.inFlight id then
    ({ s with store := s.store.updateStatus id .failed,
              processing := clearProcessing s.processing id },
      [.itemTimeout id])
  else (s, [])

/-- `Queue.getStats()`. -/
structure StatsView where
  totalProcessed : Nat
  totalErrors : Nat
  averageProcessingTime : ℚ
  currentlyProcessing : Nat
deriving DecidableEq

def getStats (s : QueueState) : StatsView :=
  { totalProcessed := s.stats.totalProcessed,
    totalErrors := s.stats.totalErrors,
    averageProcessingTime :=
      if s.stats.processingTimes.length > 0 then
        ((s.stats.processingTimes.foldl (· + ·) 0 : Nat) : ℚ) /
          (s.stats.processingTimes.length : ℚ)
      else 0,
    currentlyProcessing := s.processing.length }

/-- One scheduled `processItem` call: the item handed in, the processor
behaviour on it, the clock at entry, and the measured duration. -/
structure ProcCall where
  item : QueueItem
  out : ProcOutcome
  now : Nat
  dur : Nat
deriving DecidableEq

/-- A sequence of completed `processItem` calls, events discarded. -/
def runCalls (cfg : QueueConfig) (s : QueueState) : List ProcCall → QueueState
  | [] => s
  | c :: rest => runCalls cfg (processItem cfg s c.item c.out c.now c.dur).1 rest

/-- The stats record of a fresh `Queue`. -/
def initStats : QueueStats := ⟨0, 0, [], []⟩

/-! ### Helper lemmas and example data -/

def itemA : QueueItem := ⟨"A", .high, 0, ⟨0, .queued, 10, none, none, none, none⟩⟩

def itemB : QueueItem := ⟨"B", .normal, 0, ⟨0, .queued, 5, none, none, none, none⟩⟩

def itemC : QueueItem := ⟨"C", .high, 0, ⟨0, .queued, 20, none, none, none, none⟩⟩

/-- Looking up the id just updated through an id-preserving per-entry map
sees the update applied to the previously stored entry. -/
theorem getItem_mapUpdate (s : InMemoryStorage) (id : String)
    (f : QueueItem → QueueItem) (hf : ∀ it, (f it).id = it.id) :
    InMemoryStorage.getItem (s.map (fun it => if it.id == id then f it else it)) id =
      (InMemoryStorage.getItem s id).map f := by
  induction s with
  | nil => rfl
  | cons hd tl ih =>
      unfold InMemoryStorage.getItem at ih ⊢
      by_cases h : hd.id = id
      · have hb : (hd.id == id) = true := by simp [h]
        have hfb : ((f hd).id == id) = true := by rw [hf]; exact hb
        rw [List.map_cons, if_pos hb]
        simp [List.find?, hfb, hb]
      · have hb : (hd.id == id) = false := by simp [h]
        rw [List.map_cons, if_neg (by simp [hb])]
        simp only [List.find?, hb]
        exact ih

/-- Appending a fresh entry to a store that lacks its id makes it the one
found by `getItem`. -/
theorem getItem_append_fresh (s : InMemoryStorage) (it : QueueItem)
    (h : s.hasId it.id = false) : InMemoryStorage.getItem (s ++ [it]) it.id = some it := by
  induction s with
  | nil =>
      unfold InMemoryStorage.getItem
      simp [List.find?]
  | cons hd tl ih =>
      simp only [InMemoryStorage.hasId, List.any_cons, Bool.or_eq_false_iff] at h
      unfold InMemoryStorage.getItem at ih ⊢
      rw [List.cons_append]
      simp only [List.find?, h.1]
      exact ih h.2

/-! ### C3: exponential backoff with cap -/

/-- C3: for every attempt `n ≥ 1` the backoff is
`min(backoffBaseMs * 2^(n-1), 30000)` ms; for `backoffBaseMs = 1000`,
attempts 1..5 give 1000, 2000, 4000, 8000, 16000 ms, and every attempt ≥ 6
gives exactly 30000 ms. -/
theorem calculateBackoff_spec (base n : Nat) (_h1 : 1 ≤ n) :
    calculateBackoff base n = min (base * 2 ^ (n - 1)) 30000 ∧
    (calculateBackoff 1000 1 = 1000 ∧ calculateBackoff 1000 2 = 2000 ∧
      calculateBackoff 1000 3 = 4000 ∧ calculateBackoff 1000 4 = 8000 ∧
      calculateBackoff 1000 5 = 16000) ∧
    (6 ≤ n → calculateBackoff 1000 n = 30000) := by
  refine ⟨rfl, by decide, fun h6 => ?_⟩
  unfold calculateBackoff
  have h5 : 5 ≤ n - 1 := by omega
  have h32 : (32 : Nat) ≤ 2 ^ (n - 1) := by
    calc (32 : Nat) = 2 ^ 5 := by norm_num
    _ ≤ 2 ^ (n - 1) := Nat.pow_le_pow_right (by norm_num) h5
  have hge : 30000 ≤ 1000 * 2 ^ (n - 1) := by
    calc (30000 : Nat) ≤ 1000 * 32 := by norm_num
    _ ≤ 1000 * 2 ^ (n - 1) := Nat.mul_le_mul_left 1000 h32
  exact Nat.min_eq_right hge

/-- Witness for C3 at `base = 1000`, `n = 7`. -/
theorem calculateBackoff_spec_witness : calculateBackoff 1000 7 = 30000 :=
  (calculateBackoff_spec 1000 7 (by decide)).2.2 (by decide)

/-! ### C4: circuit breaker execute -/

/-- C4: `execute(fn)` throws a circuit-open error without invoking `fn` iff
`failures ≥ threshold` and the time since the last failure is `< timeout`;
otherwise it invokes `fn`; a resolved call resets `failures` to 0, a thrown
call increments `failures`, records `lastFailure = now`, and propagates the
original error. -/
theorem circuitBreaker_execute_spec (threshold timeout : Nat)
    (cb : CircuitBreaker) (now : Nat) (out : ProcOutcome) :
    ((cb.execute threshold timeout now out).result = .raised "Circuit breaker is open" ∧
        (cb.execute threshold timeout now out).invoked = false ↔
      threshold ≤ cb.failures ∧ (now : Int) - (cb.lastFailure : Int) < (timeout : Int)) ∧
    (cb.isOpen threshold timeout now = true →
      cb.execute threshold timeout now out =
        ⟨.raised "Circuit breaker is open", cb, false⟩) ∧
    (cb.isOpen threshold timeout now = false →
      (cb.execute threshold timeout now out).invoked = true ∧
      (out = .success → cb.execute threshold timeout now out =
        ⟨.ok true, ⟨0, cb.lastFailure⟩, true⟩) ∧
      (out = .fail → cb.execute threshold timeout now out =
        ⟨.ok false, ⟨0, cb.lastFailure⟩, true⟩) ∧
      (∀ msg, out = .thrown msg → cb.execute threshold timeout now out =
        ⟨.raised msg, ⟨cb.failures + 1, now⟩, true⟩)) := by
  have hiff : cb.isOpen threshold timeout now = true ↔
      threshold ≤ cb.failures ∧ (now : Int) - (cb.lastFailure : Int) < (timeout : Int) := by
    simp [CircuitBreaker.isOpen]
  by_cases hop : cb.isOpen threshold timeout now = true
  · refine ⟨?_, fun _ => by simp [CircuitBreaker.execute, hop],
      fun hcl => by rw [hop] at hcl; cases hcl⟩
    have hcond := hiff.mp hop
    simp [CircuitBreaker.execute, hop, hcond]
  · have hcl : cb.isOpen threshold timeout now = false := eq_false_of_ne_true hop
    refine ⟨⟨?_, fun hc => absurd (hiff.mpr hc) hop⟩, fun h => absurd h hop, fun _ => ?_⟩
    · rintro ⟨_, hinv⟩
      exfalso
      cases out <;> simp [CircuitBreaker.execute, hcl] at hinv
    · refine ⟨?_, ?_, ?_, ?_⟩
      · cases out <;> simp [CircuitBreaker.execute, hcl]
      · rintro rfl; simp [CircuitBreaker.execute, hcl]
      · rintro rfl; simp [CircuitBreaker.execute, hcl]
      · intro msg hmsg
        subst hmsg
        simp [CircuitBreaker.execute, hcl]

/-- Witness for C4: an open breaker (5 failures, 0 ms since the last one)
rejects without invoking the processor. -/
theorem circuitBreaker_execute_spec_witness :
    CircuitBreaker.execute ⟨5, 100⟩ 5 30000 100 .success =
      ⟨.raised "Circuit breaker is open", ⟨5, 100⟩, false⟩ :=
  (circuitBreaker_execute_spec 5 30000 ⟨5, 100⟩ 100 .success).2.1 (by decide)

/-! ### C5: in-flight ids make processItem a no-op -/

/-- C5: a `processItem` call for an id already in the in-flight set returns
immediately: state (stored items, in-flight set, stats) is unchanged, no
events are emitted, and the processor is not invoked. -/
theorem processItem_noop (cfg : QueueConfig) (s : QueueState) (item : QueueItem)
    (out : ProcOutcome) (now dur : Nat) (h : s.inFlight item.id = true) :
    processItem cfg s item out now dur = (s, [], false) := by
  unfold processItem
  rw [h]
  simp

/-- Witness for C5: with "A" in flight, a second `processItem` on item A is
a no-op. -/
theorem processItem_noop_witness :
    processItem ⟨3, 1000, 5000⟩ ⟨[itemA], [("A", 0)], initStats, ⟨0, 0⟩⟩ itemA
      .success 7 1 = (⟨[itemA], [("A", 0)], initStats, ⟨0, 0⟩⟩, [], false) :=
  processItem_noop ⟨3, 1000, 5000⟩ ⟨[itemA], [("A", 0)], initStats, ⟨0, 0⟩⟩ itemA
    .success 7 1 (by decide)

/-! ### C6: enqueueOnce check-and-insert -/

/-- C6 counterexample: `enqueueOnce` spreads `opts.metadata` over the
defaults, so a call whose opts carry a metadata override inserts with that
metadata: the claimed "status=queued and attempts=0 for every call" fails at
`opts.metadata = some ⟨5, failed, 0, ...⟩`. -/
theorem enqueueOnce_counterexample :
    (InMemoryStorage.enqueueOnce [] "x" 0
      ⟨none, some ⟨5, .failed, 0, none, none, none, none⟩⟩ 0).1 = true ∧
    (InMemoryStorage.getItem
      (InMemoryStorage.enqueueOnce [] "x" 0
        ⟨none, some ⟨5, .failed, 0, none, none, none, none⟩⟩ 0).2 "x").map
      (fun it => (it.metadata.status, it.metadata.attempts)) =
      some (.failed, 5) := by decide

/-- C6 (amended): `enqueueOnce` with a pre-existing id returns false and
leaves the store unmodified; with a new id it returns true and the item is
retrievable by that id, with status=queued and attempts=0 whenever `opts`
does not supply a metadata override (`opts.metadata`, when present, replaces
the default metadata). -/
theorem enqueueOnce_spec (s : InMemoryStorage) (id : String) (dat : Nat)
    (opts : EnqueueOpts) (now : Nat) :
    (s.hasId id = true → s.enqueueOnce id dat opts now = (false, s)) ∧
    (s.hasId id = false →
      (s.enqueueOnce id dat opts now).1 = true ∧
      (opts.metadata = none →
        InMemoryStorage.getItem (s.enqueueOnce id dat opts now).2 id =
          some ⟨id, opts.priority.getD .normal, dat,
            ⟨0, .queued, now, none, none, none, none⟩⟩)) := by
  constructor
  · intro h
    unfold InMemoryStorage.enqueueOnce
    rw [h]
    simp
  · intro h
    unfold InMemoryStorage.enqueueOnce
    rw [h]
    refine ⟨by simp, fun hmd => ?_⟩
    simp only [hmd, Option.getD_none]
    have := getItem_append_fresh s
      ⟨id, opts.priority.getD .normal, dat, ⟨0, .queued, now, none, none, none, none⟩⟩ h
    simpa [InMemoryStorage.enqueue, InMemoryStorage.mapSet, h] using this

/-- Witness for C6 (amended): inserting "a" into the empty store. -/
theorem enqueueOnce_spec_witness :
    (InMemoryStorage.enqueueOnce [] "a" 7 ⟨none, none⟩ 3).1 = true ∧
    InMemoryStorage.getItem (InMemoryStorage.enqueueOnce [] "a" 7 ⟨none, none⟩ 3).2 "a" =
      some ⟨"a", .normal, 7, ⟨0, .queued, 3, none, none, none, none⟩⟩ := by
  have h := (enqueueOnce_spec [] "a" 7 ⟨none, none⟩ 3).2 (by decide)
  exact ⟨h.1, h.2 rfl⟩

/-! ### C10: moveToDeadLetter frame conditions -/

/-- C10: `moveToDeadLetter(id, reason)` rewrites exactly the entries whose
id matches: status becomes undeliverable and the single `error` field
becomes the reason (overwriting whatever error message was there); every
other field and every other item is untouched, and the store keeps its
length. -/
theorem moveToDeadLetter_spec (s : InMemoryStorage) (id reason : String) (i : Nat) :
    (s.moveToDeadLetter id reason).length = s.length ∧
    (s.moveToDeadLetter id reason)[i]? =
      s[i]?.map (fun it =>
        if it.id = id then
          { it with metadata :=
            { it.metadata with status := .undeliverable, error := some reason } }
        else it) := by
  refine ⟨by simp [InMemoryStorage.moveToDeadLetter], ?_⟩
  unfold InMemoryStorage.moveToDeadLetter
  rw [List.getElem?_map]
  cases s[i]? with
  | none => rfl
  | some it => by_cases h : it.id = id <;> simp [h]

/-! ### C7: timeout handler -/

/-- Deleting an id from an in-flight map with pairwise-distinct keys leaves
no entry with that id. -/
theorem clearProcessing_not_inFlight (p : List (String × Nat)) (id : String)
    (hnd : (p.map Prod.fst).Nodup) :
    (clearProcessing p id).any (fun e => e.1 == id) = false := by
  induction p with
  | nil => rfl
  | cons e rest ih =>
      simp only [List.map_cons, List.nodup_cons] at hnd
      by_cases h : e.1 = id
      · have hb : (e.1 == id) = true := by simp [h]
        unfold clearProcessing
        rw [List.eraseP_cons, hb]
        simp only [cond_true]
        rw [List.any_eq_false]
        intro x hx
        simp only [beq_iff_eq]
        intro hxid
        exact hnd.1 (h ▸ hxid ▸ List.mem_map_of_mem Prod.fst hx)
      · have hb : (e.1 == id) = false := by simp [h]
        unfold clearProcessing at ih ⊢
        rw [List.eraseP_cons, hb]
        simp only [cond_false, List.any_cons, hb, Bool.false_or]
        exact ih hnd.2

/-- C7: when the deadline timer fires for an in-flight item, the handler
sets the stored item status to failed (leaving its attempts — and every
other field — unchanged), raises `itemTimeout`, clears the in-flight entry,
and leaves the stats (hence `totalErrors`) untouched. -/
theorem handleTimeout_spec (s : QueueState) (id : String) (st : QueueItem)
    (hin : s.inFlight id = true) (hst : s.store.getItem id = some st)
    (hnd : (s.processing.map Prod.fst).Nodup) :
    InMemoryStorage.getItem (handleTimeout s id).1.store id =
      some { st with metadata := { st.metadata with status := .failed } } ∧
    (handleTimeout s id).1.stats = s.stats ∧
    (handleTimeout s id).1.inFlight id = false ∧
    (handleTimeout s id).2 = [.itemTimeout id] := by
  have hred : handleTimeout s id =
      ({ s with store := s.store.updateStatus id .failed,
                processing := clearProcessing s.processing id }, [.itemTimeout id]) := by
    unfold handleTimeout
    rw [hin]
    simp
  have hmap := getItem_mapUpdate s.store id
    (fun it => { it with metadata := { it.metadata with status := .failed } })
    (fun _ => rfl)
  rw [hred]
  refine ⟨?_, rfl, ?_, rfl⟩
  · show InMemoryStorage.getItem (InMemoryStorage.updateStatus s.store id .failed) id = _
    unfold InMemoryStorage.updateStatus
    rw [hmap, hst]
    rfl
  · show (clearProcessing s.processing id).any (fun e => e.1 == id) = false
    exact clearProcessing_not_inFlight s.processing id hnd

/-- Witness for C7: item "A" in flight and stored as queued; the timeout
handler flips only its status to failed. -/
theorem handleTimeout_spec_witness :
    InMemoryStorage.getItem
      (handleTimeout ⟨[itemA], [("A", 0)], initStats, ⟨0, 0⟩⟩ "A").1.store "A" =
      some { itemA with metadata := { itemA.metadata with status := .failed } } ∧
    (handleTimeout ⟨[itemA], [("A", 0)], initStats, ⟨0, 0⟩⟩ "A").1.stats = initStats ∧
    (handleTimeout ⟨[itemA], [("A", 0)], initStats, ⟨0, 0⟩⟩ "A").1.inFlight "A" = false ∧
    (handleTimeout ⟨[itemA], [("A", 0)], initStats, ⟨0, 0⟩⟩ "A").2 =
      [.itemTimeout "A"] :=
  handleTimeout_spec ⟨[itemA], [("A", 0)], initStats, ⟨0, 0⟩⟩ "A" itemA
    (by decide) (by decide) (by decide)

/-! ### C1: retry / dead-letter transition -/

/-- C1: a funneled failure increments the attempts of the item by exactly 1;
the incremented attempts reach `maxRetries` the item goes to the dead
letter (stored status=undeliverable, reason "max_retries") and
`itemUndeliverable` is raised; otherwise `nextAttemptAt` is set to now plus
the computed backoff, the status becomes queued, the queued status is
persisted, and `itemRetryScheduled` is raised. -/
theorem handleFailure_spec (cfg : QueueConfig) (store : InMemoryStorage)
    (item : QueueItem) (now : Nat) (st : QueueItem)
    (hst : store.getItem item.id = some st) :
    (handleFailure cfg store item now).1.metadata.attempts =
      item.metadata.attempts + 1 ∧
    (cfg.maxRetries ≤ item.metadata.attempts + 1 →
      (handleFailure cfg store item now).1.metadata.status = .undeliverable ∧
      (InMemoryStorage.getItem (handleFailure cfg store item now).2.1 item.id).map
        (fun it => (it.metadata.status, it.metadata.error)) =
        some (.undeliverable, some "max_retries") ∧
      (handleFailure cfg store item now).2.2 = [.itemUndeliverable item.id]) ∧
    (item.metadata.attempts + 1 < cfg.maxRetries →
      (handleFailure cfg store item now).1.metadata.nextAttemptAt =
        some (now + calculateBackoff cfg.backoffBaseMs (item.metadata.attempts + 1)) ∧
      (handleFailure cfg store item now).1.metadata.status = .queued ∧
      (InMemoryStorage.getItem (handleFailure cfg store item now).2.1 item.id).map
        (fun it => it.metadata.status) = some .queued ∧
      (handleFailure cfg store item now).2.2 = [.itemRetryScheduled item.id]) := by
  by_cases hcase : cfg.maxRetries ≤ item.metadata.attempts + 1
  · have hred : handleFailure cfg store item now =
        ({ item with metadata := { item.metadata with
              attempts := item.metadata.attempts + 1, status := .undeliverable } },
          store.moveToDeadLetter item.id "max_retries",
          [.itemUndeliverable item.id]) := by
      simp only [handleFailure]
      rw [if_pos hcase]
    rw [hred]
    refine ⟨rfl, fun _ => ⟨rfl, ?_, rfl⟩, fun hlt => absurd hcase (by omega)⟩
    have hmap := getItem_mapUpdate store item.id
      (fun it => { it with metadata :=
        { it.metadata with status := .undeliverable, error := some "max_retries" } })
      (fun _ => rfl)
    show (InMemoryStorage.getItem
      (InMemoryStorage.moveToDeadLetter store item.id "max_retries") item.id).map _ = _
    unfold InMemoryStorage.moveToDeadLetter
    rw [hmap, hst]
    rfl
  · have hred : handleFailure cfg store item now =
        ({ item with metadata := { item.metadata with
              attempts := item.metadata.attempts + 1, status := .queued,
              nextAttemptAt := some (now +
                calculateBackoff cfg.backoffBaseMs (item.metadata.attempts + 1)) } },
          store.updateStatus item.id .queued,
          [.itemRetryScheduled item.id]) := by
      simp only [handleFailure]
      rw [if_neg hcase]
    rw [hred]
    refine ⟨rfl, fun hge => absurd hge hcase, fun _ => ⟨rfl, rfl, ?_, rfl⟩⟩
    have hmap := getItem_mapUpdate store item.id
      (fun it => { it with metadata := { it.metadata with status := .queued } })
      (fun _ => rfl)
    show (InMemoryStorage.getItem
      (InMemoryStorage.updateStatus store item.id .queued) item.id).map _ = _
    unfold InMemoryStorage.updateStatus
    rw [hmap, hst]
    rfl

/-- Witness for C1: an item at attempts=2 under maxRetries=3 is dead-lettered
with reason "max_retries". -/
theorem handleFailure_spec_witness :
    (InMemoryStorage.getItem
      (handleFailure ⟨3, 1000, 5000⟩
        [⟨"F", .normal, 0, ⟨2, .processing, 0, none, none, none, none⟩⟩]
        ⟨"F", .normal, 0, ⟨2, .processing, 0, none, none, none, none⟩⟩ 50).2.1 "F").map
      (fun it => (it.metadata.status, it.metadata.error)) =
      some (.undeliverable, some "max_retries") :=
  ((handleFailure_spec ⟨3, 1000, 5000⟩
      [⟨"F", .normal, 0, ⟨2, .processing, 0, none, none, none, none⟩⟩]
      ⟨"F", .normal, 0, ⟨2, .processing, 0, none, none, none, none⟩⟩ 50
      ⟨"F", .normal, 0, ⟨2, .processing, 0, none, none, none, none⟩⟩
      (by decide)).2.1 (by decide)).2.1

/-! ### C2: dequeue eligibility, ordering, limit -/

/-- C2: `dequeue(limit)` returns only queued items whose `nextAttemptAt` is
unset or ≤ now and whose `expiresAt` is unset or > now, sorted by priority
rank then `queuedAt` ascending, with at most `limit` items; for queued items
A(high, t10), B(normal, t5), C(high, t20), `dequeue(3)` is `[A, C, B]`. -/
theorem dequeue_spec (s : InMemoryStorage) (limit now : Nat) :
    (∀ it ∈ s.dequeue limit now,
      it.metadata.status = .queued ∧
      (∀ t, it.metadata.nextAttemptAt = some t → t ≤ now) ∧
      (∀ t, it.metadata.expiresAt = some t → now < t)) ∧
    List.Sorted dequeueLE (s.dequeue limit now) ∧
    (s.dequeue limit now).length ≤ limit ∧
    InMemoryStorage.dequeue [itemA, itemB, itemC] 3 100 = [itemA, itemC, itemB] := by
  refine ⟨?_, ?_, ?_, by decide⟩
  · intro it hmem
    have hmem2 : it ∈ (s.filter (dequeueReady now)).insertionSort dequeueLE :=
      List.mem_of_mem_take hmem
    have hmem3 : it ∈ s.filter (dequeueReady now) :=
      (List.mem_insertionSort dequeueLE).mp hmem2
    have hready : dequeueReady now it = true := List.of_mem_filter hmem3
    unfold dequeueReady at hready
    simp only [Bool.and_eq_true, beq_iff_eq] at hready
    refine ⟨hready.1.1, fun t ht => ?_, fun t ht => ?_⟩
    · have := hready.1.2
      rw [ht] at this
      simpa using this
    · have := hready.2
      rw [ht] at this
      simpa using this
  · have hs : List.Sorted dequeueLE ((s.filter (dequeueReady now)).insertionSort dequeueLE) :=
      List.sorted_insertionSort dequeueLE (s.filter (dequeueReady now))
    exact List.Pairwise.sublist (List.take_sublist limit _) hs
  · unfold InMemoryStorage.dequeue
    rw [List.length_take]
    exact Nat.min_le_left _ _

/-- Witness for C2: A comes back from the example dequeue and satisfies the
eligibility predicate. -/
theorem dequeue_spec_witness :
    itemA.metadata.status = .queued :=
  ((dequeue_spec [itemA, itemB, itemC] 3 100).1 itemA (by decide)).1

/-! ### C8 / C9: stats counters -/

theorem recordStats_totalErrors (stats : QueueStats) (id : String) (dur : Nat) :
    (recordStats stats id dur).totalErrors = stats.totalErrors := by
  by_cases h : id ∈ stats.seen <;> simp [recordStats, h]

/-- A resolved breaker call (with any success flag) leaves the stats change of `processItem`
update at exactly `recordStats`. -/
theorem processItem_stats_ok (cfg : QueueConfig) (s : QueueState) (item : QueueItem)
    (out : ProcOutcome) (now dur : Nat) (b : Bool)
    (h : s.inFlight item.id = false)
    (hres : (s.cb.execute breakerThreshold breakerCooldownMs now out).result = .ok b) :
    (processItem cfg s item out now dur).1.stats = recordStats s.stats item.id dur := by
  simp only [processItem, h, Bool.false_eq_true, if_false, hres]
  cases b <;> rfl

/-- A raised breaker call (breaker-open rejection or processor throw) routes
through `handleError`, whose only stats change is `totalErrors + 1`. -/
theorem processItem_stats_raised (cfg : QueueConfig) (s : QueueState) (item : QueueItem)
    (out : ProcOutcome) (now dur : Nat) (msg : String)
    (h : s.inFlight item.id = false)
    (hres : (s.cb.execute breakerThreshold breakerCooldownMs now out).result =
      .raised msg) :
    (processItem cfg s item out now dur).1.stats =
      { s.stats with totalErrors := s.stats.totalErrors + 1 } := by
  simp only [processItem, h, Bool.false_eq_true, if_false, hres]
  rfl

/-- C8 counterexample: an explicit `{success:false}` on a fresh item is a
funneled failure (it schedules a retry) yet leaves `totalErrors` at 0,
refuting "every funneled failure increments totalErrors". -/
theorem totalErrors_counterexample :
    (processItem ⟨3, 1000, 5000⟩ ⟨[itemA], [], initStats, ⟨0, 0⟩⟩ itemA
      .fail 100 5).2.1 = [.itemRetryScheduled "A"] ∧
    (processItem ⟨3, 1000, 5000⟩ ⟨[itemA], [], initStats, ⟨0, 0⟩⟩ itemA
      .fail 100 5).1.stats.totalErrors = 0 := by decide

/-- C8 (amended): every thrown error reaching the catch in `processItem` — a
processor throw, or a breaker-open rejection — increments `totalErrors` by
exactly 1; an explicit `{success:false}` result funnels into the retry
handler without touching `totalErrors`; `totalErrors` can exceed
`totalProcessed` (two throws on one id give 2 errors, 0 processed). -/
theorem totalErrors_spec (cfg : QueueConfig) (s : QueueState) (item : QueueItem)
    (now dur : Nat) (h : s.inFlight item.id = false) :
    (s.cb.isOpen breakerThreshold breakerCooldownMs now = true →
      ∀ out, (processItem cfg s item out now dur).1.stats.totalErrors =
        s.stats.totalErrors + 1) ∧
    (s.cb.isOpen breakerThreshold breakerCooldownMs now = false →
      (∀ msg, (processItem cfg s item (.thrown msg) now dur).1.stats.totalErrors =
        s.stats.totalErrors + 1) ∧
      (processItem cfg s item .fail now dur).1.stats.totalErrors =
        s.stats.totalErrors ∧
      (processItem cfg s item .success now dur).1.stats.totalErrors =
        s.stats.totalErrors) ∧
    (getStats (runCalls ⟨3, 1000, 5000⟩ ⟨[itemA], [], initStats, ⟨0, 0⟩⟩
      [⟨itemA, .thrown "boom", 0, 1⟩, ⟨itemA, .thrown "boom", 10, 1⟩])).totalErrors = 2 ∧
    (getStats (runCalls ⟨3, 1000, 5000⟩ ⟨[itemA], [], initStats, ⟨0, 0⟩⟩
      [⟨itemA, .thrown "boom", 0, 1⟩, ⟨itemA, .thrown "boom", 10, 1⟩])).totalProcessed =
      0 := by
  refine ⟨fun hop out => ?_, fun hcl => ⟨fun msg => ?_, ?_, ?_⟩, by decide, by decide⟩
  · have hres : (s.cb.execute breakerThreshold breakerCooldownMs now out).result =
        .raised "Circuit breaker is open" := by
      simp [CircuitBreaker.execute, hop]
    rw [processItem_stats_raised cfg s item out now dur _ h hres]
  · have hres : (s.cb.execute breakerThreshold breakerCooldownMs now
        (.thrown msg)).result = .raised msg := by
      simp [CircuitBreaker.execute, hcl]
    rw [processItem_stats_raised cfg s item (.thrown msg) now dur _ h hres]
  · have hres : (s.cb.execute breakerThreshold breakerCooldownMs now .fail).result =
        .ok false := by
      simp [CircuitBreaker.execute, hcl]
    rw [processItem_stats_ok cfg s item .fail now dur false h hres,
      recordStats_totalErrors]
  · have hres : (s.cb.execute breakerThreshold breakerCooldownMs now .success).result =
        .ok true := by
      simp [CircuitBreaker.execute, hcl]
    rw [processItem_stats_ok cfg s item .success now dur true h hres,
      recordStats_totalErrors]

/-- Witness for C8 (amended): one thrown error from a closed breaker takes
`totalErrors` from 0 to 1. -/
theorem totalErrors_spec_witness :
    (processItem ⟨3, 1000, 5000⟩ ⟨[itemA], [], initStats, ⟨0, 0⟩⟩ itemA
      (.thrown "boom") 100 5).1.stats.totalErrors = 0 + 1 :=
  (((totalErrors_spec ⟨3, 1000, 5000⟩ ⟨[itemA], [], initStats, ⟨0, 0⟩⟩ itemA 100 5
      (by decide)).2.1 (by decide)).1 "boom")

theorem recordStats_seen (stats : QueueStats) (id : String) (dur : Nat) :
    (recordStats stats id dur).seen =
      if id ∈ stats.seen then stats.seen else id :: stats.seen := by
  by_cases hc : id ∈ stats.seen <;> simp [recordStats, hc]

theorem recordStats_totalProcessed (stats : QueueStats) (id : String) (dur : Nat) :
    (recordStats stats id dur).totalProcessed =
      if id ∈ stats.seen then stats.totalProcessed else stats.totalProcessed + 1 := by
  by_cases hc : id ∈ stats.seen <;> simp [recordStats, hc]

/-- The dedup invariant: `totalProcessed` equals the size of the `seen` set,
and every seen id is among `ids`. -/
def statsOk (stats : QueueStats) (ids : List String) : Prop :=
  stats.totalProcessed = stats.seen.length ∧ stats.seen.Nodup ∧
    ∀ x ∈ stats.seen, x ∈ ids

theorem statsOk_mono (stats : QueueStats) (ids ids' : List String)
    (hsub : ∀ x ∈ ids, x ∈ ids') (h : statsOk stats ids) : statsOk stats ids' :=
  ⟨h.1, h.2.1, fun x hx => hsub x (h.2.2 x hx)⟩

theorem statsOk_recordStats (stats : QueueStats) (id : String) (dur : Nat)
    (ids : List String) (h : statsOk stats ids) (hid : id ∈ ids) :
    statsOk (recordStats stats id dur) ids := by
  obtain ⟨h1, h2, h3⟩ := h
  by_cases hc : id ∈ stats.seen
  · exact ⟨by rw [recordStats_totalProcessed, recordStats_seen, if_pos hc, if_pos hc, h1],
      by rw [recordStats_seen, if_pos hc]; exact h2,
      by rw [recordStats_seen, if_pos hc]; exact h3⟩
  · refine ⟨by rw [recordStats_totalProcessed, recordStats_seen, if_neg hc, if_neg hc,
      List.length_cons, h1], ?_, ?_⟩
    · rw [recordStats_seen, if_neg hc]
      exact List.nodup_cons.mpr ⟨hc, h2⟩
    · rw [recordStats_seen, if_neg hc]
      intro x hx
      rcases List.mem_cons.mp hx with rfl | hx'
      · exact hid
      · exact h3 x hx'

theorem processItem_statsOk (cfg : QueueConfig) (s : QueueState) (item : QueueItem)
    (out : ProcOutcome) (now dur : Nat) (ids : List String)
    (h : statsOk s.stats ids) (hid : item.id ∈ ids) :
    statsOk (processItem cfg s item out now dur).1.stats ids := by
  by_cases hf : s.inFlight item.id
  · have hnoop : (processItem cfg s item out now dur).1.stats = s.stats := by
      simp [processItem, hf]
    rw [hnoop]
    exact h
  · have hf2 : s.inFlight item.id = false := eq_false_of_ne_true hf
    rcases hres : (s.cb.execute breakerThreshold breakerCooldownMs now out).result
      with b | msg
    · rw [processItem_stats_ok cfg s item out now dur b hf2 hres]
      exact statsOk_recordStats s.stats item.id dur ids h hid
    · rw [processItem_stats_raised cfg s item out now dur msg hf2 hres]
      exact ⟨h.1, h.2.1, h.2.2⟩

theorem runCalls_statsOk (cfg : QueueConfig) :
    ∀ (calls : List ProcCall) (s : QueueState) (ids : List String),
      statsOk s.stats ids →
      statsOk (runCalls cfg s calls).stats (ids ++ calls.map (fun c => c.item.id))
  | [], _, _, h => by simpa [runCalls] using h
  | c :: rest, s, ids, h => by
      have h1 : statsOk s.stats (ids ++ [c.item.id]) :=
        statsOk_mono _ _ _ (fun x hx => List.mem_append_left _ hx) h
      have h2 := processItem_statsOk cfg s c.item c.out c.now c.dur (ids ++ [c.item.id])
        h1 (List.mem_append_right _ (List.mem_singleton_self _))
      have h3 := runCalls_statsOk cfg rest (processItem cfg s c.item c.out c.now c.dur).1
        (ids ++ [c.item.id]) h2
      simpa [runCalls, List.append_assoc] using h3

theorem nodup_subset_le_dedup_length (l L : List String) (hnd : l.Nodup)
    (hsub : ∀ x ∈ l, x ∈ L) : l.length ≤ L.dedup.length := by
  have h1 : l.toFinset.card = l.length := List.toFinset_card_of_nodup hnd
  have h2 : L.toFinset.card = L.dedup.length := List.card_toFinset L
  have h3 : l.toFinset ⊆ L.toFinset := by
    intro x hx
    exact List.mem_toFinset.mpr (hsub x (List.mem_toFinset.mp hx))
  calc l.length = l.toFinset.card := h1.symm
    _ ≤ L.toFinset.card := Finset.card_le_card h3
    _ = L.dedup.length := h2

/-- C9: over any sequence of completed `processItem` calls on a fresh
queue, `getStats().totalProcessed` counts each distinct item id at most
once: it is bounded by the number of distinct ids among the calls. -/
theorem totalProcessed_dedup (cfg : QueueConfig) (store : InMemoryStorage)
    (proc : List (String × Nat)) (cb : CircuitBreaker) (calls : List ProcCall) :
    (getStats (runCalls cfg ⟨store, proc, initStats, cb⟩ calls)).totalProcessed ≤
      (calls.map (fun c => c.item.id)).dedup.length := by
  have h0 : statsOk initStats [] := ⟨rfl, List.nodup_nil, by simp [initStats]⟩
  have h := runCalls_statsOk cfg calls ⟨store, proc, initStats, cb⟩ [] h0
  rw [List.nil_append] at h
  obtain ⟨hp, hnd, hsub⟩ := h
  show (runCalls cfg ⟨store, proc, initStats, cb⟩ calls).stats.totalProcessed ≤ _
  rw [hp]
  exact nodup_subset_le_dedup_length _ _ hnd hsub
